import Mathlib

/-!
Verification of the HydraDB bitcask storage engine (core crate) against its
natural-language specification.  The definitions below are a shallow
embedding of `src/core/src/hydradb.rs`, `src/core/src/restore.rs`,
`src/core/src/data_file_iter.rs`, `src/core/src/hint_file_iter.rs` and
`src/core/src/in_mem_kv.rs`.  Bytes are modelled as `Nat` (one byte per list
element); machine integers (`u32`, `u64`, `usize`) are modelled as `Nat`,
with explicit `% 2^32` reductions where the code truncates (`as u32`,
big-endian serialization).  File-system state is modelled as an association
list from numeric file id to byte contents; timestamps are passed in as
parameters since the wall clock is external input.
-/

namespace HydraSpec

/-- Big-endian encoding of the low 32 bits of `n`, as in `u32::to_be_bytes`
(the `% 256` projections of the byte positions are exactly the bytes of
`n % 2^32`, so `as u32` truncation is implicit). -/
def be32 (n : Nat) : List Nat :=
  [n / 2 ^ 24 % 256, n / 2 ^ 16 % 256, n / 2 ^ 8 % 256, n % 256]

/-- Big-endian encoding of the low 64 bits of `n`, as in `u64::to_be_bytes`. -/
def be64 (n : Nat) : List Nat :=
  [n / 2 ^ 56 % 256, n / 2 ^ 48 % 256, n / 2 ^ 40 % 256, n / 2 ^ 32 % 256,
   n / 2 ^ 24 % 256, n / 2 ^ 16 % 256, n / 2 ^ 8 % 256, n % 256]

/-- Decode a big-endian `u32` from the first four bytes of a list, as in
`u32::from_be_bytes` applied to a 4-byte slice.  Shorter lists never occur
at the call sites (the read buffers are fixed-size arrays). -/
def decode32 : List Nat → Nat
  | a :: b :: c :: d :: _ => ((a * 256 + b) * 256 + c) * 256 + d
  | _ => 0

/-- Decode a big-endian `u64` from the first eight bytes of a list. -/
def decode64 : List Nat → Nat
  | a :: b :: c :: d :: e :: f :: g :: h :: _ =>
    ((((((a * 256 + b) * 256 + c) * 256 + d) * 256 + e) * 256 + f) * 256 + g) * 256 + h
  | _ => 0

/-- One bit-step of the IEEE CRC-32 computation (polynomial 0xEDB88320),
as performed by the `crc32fast` crate used in `utils.rs`. -/
def crcStep (c : Nat) : Nat :=
  if c % 2 = 1 then (c / 2) ^^^ 0xEDB88320 else c / 2

/-- Process one input byte of the CRC-32 computation. -/
def crc32Byte (c b : Nat) : Nat :=
  crcStep (crcStep (crcStep (crcStep (crcStep (crcStep (crcStep (crcStep (c ^^^ b))))))))

/-- IEEE CRC-32 of a byte sequence, as computed by `crc32fast::Hasher`. -/
def crc32 (data : List Nat) : Nat :=
  (data.foldl crc32Byte 0xFFFFFFFF) ^^^ 0xFFFFFFFF

/-- Embedding of `utils::calc_crc`: CRC-32 over the big-endian encodings of
`tstamp`, `ksz`, `vsz` followed by the key and value bytes. -/
def calc_crc (tstamp ksz vsz : Nat) (k v : List Nat) : Nat :=
  crc32 (be32 tstamp ++ be32 ksz ++ be32 vsz ++ k ++ v)

/-- The reserved deletion marker: the literal bytes `TOMBSTONE`. -/
def TOMBSTONE : List Nat := [84, 79, 77, 66, 83, 84, 79, 78, 69]

/-- Embedding of `hydradb::to_db_entry`: serialized data-file record
`crc ∥ tstamp ∥ ksz ∥ vsz ∥ key ∥ value`, all integers big-endian 32-bit. -/
def to_db_entry (crc tstamp : Nat) (k v : List Nat) : List Nat :=
  be32 crc ++ be32 tstamp ++ be32 k.length ++ be32 v.length ++ k ++ v

/-- Embedding of `hydradb::to_hint_entry`: serialized hint-file entry
`tstamp ∥ ksz ∥ vsz ∥ val_pos ∥ key` (`val_pos` is 64-bit). -/
def to_hint_entry (tstamp : Nat) (k v : List Nat) (val_pos : Nat) : List Nat :=
  be32 tstamp ++ be32 k.length ++ be32 v.length ++ be64 val_pos ++ k

/-- Embedding of `key_dir::KeyDirEntry` (mirrored by `InMemEntry` in
`src/core/src/in_mem_kv.rs`): the key-directory locator tuple. -/
structure KeyDirEntry where
  file_id : Nat
  val_sz : Nat
  val_pos : Nat
  tstamp : Nat
  deriving DecidableEq

/-- Modelled from the spec: the `key_dir` module itself is not under `src/`
(only its callers are), so the key directory is modelled from spec section 4.4
and from the in-repo `InMemKVStore` (`src/core/src/in_mem_kv.rs`), which
exposes the identical interface: a map from key bytes to `KeyDirEntry` where
`put` overwrites, `del` removes, and `keys` returns the absent result on an
empty map.  Represented as an association list; `keyDirPut` keeps keys
unique, so the list is a faithful finite map. -/
abbrev KeyDir : Type := List (List Nat × KeyDirEntry)

/-- Lookup in the key directory (`KeyDir::get` / `InMemKVStore::get`). -/
def keyDirGet : KeyDir → List Nat → Option KeyDirEntry
  | [], _ => none
  | (k', e) :: t, k => if k' = k then some e else keyDirGet t k

/-- Insert-or-overwrite (`KeyDir::put` / `InMemKVStore::put`, i.e.
`HashMap::insert`). -/
def keyDirPut : KeyDir → List Nat → KeyDirEntry → KeyDir
  | [], k, e => [(k, e)]
  | (k', e') :: t, k, e => if k' = k then (k, e) :: t else (k', e') :: keyDirPut t k e

/-- Removal (`KeyDir::del` / `InMemKVStore::del`, i.e. `HashMap::remove`). -/
def keyDirDel : KeyDir → List Nat → KeyDir
  | [], _ => []
  | (k', e') :: t, k => if k' = k then keyDirDel t k else (k', e') :: keyDirDel t k

/-- Key-presence test (`KeyDir::has_key`, i.e. `HashMap::contains_key`). -/
def keyDirHas (kd : KeyDir) (k : List Nat) : Bool :=
  (keyDirGet kd k).isSome

/-- Embedding of `InMemKVStore::keys` (the shape of `KeyDir::keys` used by
`HydraDB::list_all`): `None` on an empty map, otherwise `Some` of the key
list. -/
def keyDirKeys (kd : KeyDir) : Option (List (List Nat)) :=
  if kd.isEmpty then none else some (kd.map (fun p => p.1))

/-- Number of entries (`KeyDir::len`). -/
def keyDirLen (kd : KeyDir) : Nat := kd.length

/-- The cask directory's data files: an association list from numeric file
id to file contents (bytes). -/
abbrev Files : Type := List (Nat × List Nat)

/-- Contents of file `id`, if the file exists. -/
def lookupFile : Files → Nat → Option (List Nat)
  | [], _ => none
  | (i, c) :: t, id => if i = id then some c else lookupFile t id

/-- Replace-or-create file `id` with contents `b`. -/
def setFile : Files → Nat → List Nat → Files
  | [], id, b => [(id, b)]
  | (i, c) :: t, id, b => if i = id then (id, b) :: t else (i, c) :: setFile t id b

/-- Append bytes to file `id`, creating it when absent (the effect of an
`OpenOptions::create(true).append(true)` handle being written through). -/
def appendFile (fs : Files) (id : Nat) (b : List Nat) : Files :=
  setFile fs id (((lookupFile fs id).getD []) ++ b)

/-- Create file `id` empty when it does not yet exist (the effect of
`OpenOptions::create(true).append(true).open` alone). -/
def openAppend (fs : Files) (id : Nat) : Files :=
  if (lookupFile fs id).isNone then fs ++ [(id, [])] else fs

/-- Embedding of the mutable state of `HydraDB` (`hydradb.rs`): the active
file id `cur_id`, the key directory, the configured threshold, the
`WriterState` fields `last_val_offset` / `cur_file_size`, and the cask's
data files.  `usize`/`u64` quantities are modelled as `Nat`; no claim
involves their wrap-around. -/
structure HydraDB where
  cur_id : Nat
  key_dir : KeyDir
  max_file_size_threshold : Nat
  last_val_offset : Nat
  cur_file_size : Nat
  files : Files
  deriving DecidableEq

/-- The shared write body of both branches of
`HydraDB::put_with_file_size_check` (the Rust code duplicates this text in
the two arms of the `if`): compute `val_pos` from the running offset, build
the record with `to_db_entry`, write it through the buffered writer, flush,
and advance `last_val_offset` and `cur_file_size` by the record size. -/
def writeRecord (s : HydraDB) (k v : List Nat) (ts : Nat) : HydraDB × KeyDirEntry :=
  let file_id := s.cur_id
  let ksz := k.length
  let val_pos := s.last_val_offset + 16 + ksz
  let vsz := v.length
  let crc := calc_crc ts ksz vsz k v
  let entry := to_db_entry crc ts k v
  ({ s with
      files := appendFile s.files s.cur_id entry,
      last_val_offset := s.last_val_offset + (16 + ksz + vsz),
      cur_file_size := s.cur_file_size + (16 + k.length + v.length) },
   ⟨file_id, vsz, val_pos, ts⟩)

/-- Embedding of `HydraDB::put_with_file_size_check`: when the incoming
record would reach the threshold, rotate first (bump `cur_id`, open the new
file for create+append, reset `last_val_offset` and `cur_file_size` to
zero), then perform the common write body against the post-rotation state. -/
def putWithFileSizeCheck (s : HydraDB) (k v : List Nat) (ts : Nat) : HydraDB × KeyDirEntry :=
  if s.max_file_size_threshold ≤ 16 + k.length + v.length + s.cur_file_size then
    writeRecord
      { s with
          cur_id := s.cur_id + 1,
          files := openAppend s.files (s.cur_id + 1),
          last_val_offset := 0,
          cur_file_size := 0 }
      k v ts
  else
    writeRecord s k v ts

/-- Embedding of `HydraDB::put`: persist the record, then install the
returned entry in the key directory. -/
def putDB (s : HydraDB) (k v : List Nat) (ts : Nat) : HydraDB :=
  let r := putWithFileSizeCheck s k v ts
  { r.1 with key_dir := keyDirPut r.1.key_dir k r.2 }

/-- Embedding of `HydraDB::get`: look the key up in the key directory; on a
hit, open the referenced file (an error when it does not exist) and perform
`read_exact_at` of `val_sz` bytes at `val_pos`, which fails rather than
returning short data when the file is too short. -/
def getValue (s : HydraDB) (k : List Nat) : Except String (Option (List Nat)) :=
  match keyDirGet s.key_dir k with
  | none => .ok none
  | some e =>
    match lookupFile s.files e.file_id with
    | none => .error "open failed"
    | some f =>
      if e.val_pos + e.val_sz ≤ f.length then
        .ok (some ((f.drop e.val_pos).take e.val_sz))
      else
        .error "read_exact_at failed"

/-- Embedding of `HydraDB::del`: record presence first; when present, write
a record with value `TOMBSTONE` through `put_with_file_size_check` and then
remove the key from the key directory; return the recorded presence. -/
def delDB (s : HydraDB) (k : List Nat) (ts : Nat) : HydraDB × Bool :=
  if keyDirHas s.key_dir k then
    let r := putWithFileSizeCheck s k TOMBSTONE ts
    ({ r.1 with key_dir := keyDirDel r.1.key_dir k }, true)
  else
    (s, false)

/-- Embedding of `HydraDB::list_all`: delegate to the key directory's
`keys`. -/
def listAll (s : HydraDB) : Option (List (List Nat)) :=
  keyDirKeys s.key_dir

/-- A `HydraDB` freshly opened on a nonexistent cask directory
(`HydraDB::new`, first branch): active id 0, zero length and offset, file 0
created empty, and an empty key directory (the restore pass over the empty
file 0 installs nothing). -/
def newHydraDB (threshold : Nat) : HydraDB :=
  { cur_id := 0,
    key_dir := [],
    max_file_size_threshold := threshold,
    last_val_offset := 0,
    cur_file_size := 0,
    files := [(0, [])] }

/-- Apply a sequence of `put` operations (key, value, timestamp). -/
def applyPuts (s : HydraDB) (l : List (List Nat × List Nat × Nat)) : HydraDB :=
  l.foldl (fun s p => putDB s p.1 p.2.1 p.2.2) s

/-- Writer-state invariant of a running engine: the running value offset
equals the active file's length (the code maintains it incrementally to
avoid seeks), and no file beyond the active id exists yet. -/
def Good (s : HydraDB) : Prop :=
  s.last_val_offset = ((lookupFile s.files s.cur_id).getD []).length ∧
  ∀ id, s.cur_id < id → lookupFile s.files id = none

/-- The key-directory entry `e` denotes `v`: file `e.file_id` exists and
holds exactly the bytes of `v` at `[e.val_pos, e.val_pos + e.val_sz)`. -/
def entryReads (fs : Files) (e : KeyDirEntry) (v : List Nat) : Prop :=
  ∃ f, lookupFile fs e.file_id = some f ∧ e.val_pos + e.val_sz ≤ f.length ∧
    (f.drop e.val_pos).take e.val_sz = v

/-- A record as parsed by the data-file iterators
(`data_file_iter::DataFileEntry`). -/
structure ParsedRecord where
  crc : Nat
  tstamp : Nat
  ksz : Nat
  vsz : Nat
  key : List Nat
  val : List Nat
  val_pos : Nat
  deriving DecidableEq

/-- An entry as parsed by the hint-file iterator
(`hint_file_iter::HintFileEntry`). -/
structure ParsedHint where
  tstamp : Nat
  ksz : Nat
  vsz : Nat
  key : List Nat
  val_pos : Nat
  deriving DecidableEq

/-- Loop body of `DataFileIterator::next` (`data_file_iter.rs`), executed
over the file bytes with an explicit 16-byte header buffer and absolute
offset.  `reader.read(&mut buf)` returns `min(16, remaining)` bytes for a
fully buffered file and only the returned count of buffer bytes is
overwritten, so a short final read decodes against the residual buffer
contents; the code only checks `size != 0`.  A failed `read_exact` on the
key or value leaves the reader at end-of-file, so the iterator yields that
error and the following `next` returns `None`; hence the model stops after
an error.  Fuel is structural; each iteration consumes at least one byte,
so `bytes.length + 1` fuel is always enough. -/
def dataIterLoop : Nat → List Nat → List Nat → Nat → List (Except String ParsedRecord)
  | 0, _, _, _ => []
  | fuel + 1, buf, rest, off =>
    let chunk := rest.take 16
    if chunk.length = 0 then []
    else
      let buf2 := chunk ++ buf.drop chunk.length
      let crc := decode32 buf2
      let tstamp := decode32 (buf2.drop 4)
      let ksz := decode32 (buf2.drop 8)
      let vsz := decode32 (buf2.drop 12)
      let rest2 := rest.drop chunk.length
      let off2 := off + chunk.length
      if ksz ≤ rest2.length then
        let key := rest2.take ksz
        let rest3 := rest2.drop ksz
        let val_pos := off2 + ksz
        if vsz ≤ rest3.length then
          let val := rest3.take vsz
          .ok ⟨crc, tstamp, ksz, vsz, key, val, val_pos⟩ ::
            dataIterLoop fuel buf2 (rest3.drop vsz) (val_pos + vsz)
        else [.error "read_exact val failed"]
      else [.error "read_exact key failed"]

/-- All items yielded by a `DataFileIterator` over the given file bytes. -/
def dataFileRecords (bytes : List Nat) : List (Except String ParsedRecord) :=
  dataIterLoop (bytes.length + 1) (List.replicate 16 0) bytes 0

/-- Loop body of `HintFileIterator::next` (`hint_file_iter.rs`), with its
20-byte header buffer; same reading discipline as `dataIterLoop`. -/
def hintIterLoop : Nat → List Nat → List Nat → List (Except String ParsedHint)
  | 0, _, _ => []
  | fuel + 1, buf, rest =>
    let chunk := rest.take 20
    if chunk.length = 0 then []
    else
      let buf2 := chunk ++ buf.drop chunk.length
      let tstamp := decode32 buf2
      let ksz := decode32 (buf2.drop 4)
      let vsz := decode32 (buf2.drop 8)
      let val_pos := decode64 (buf2.drop 12)
      let rest2 := rest.drop chunk.length
      if ksz ≤ rest2.length then
        .ok ⟨tstamp, ksz, vsz, rest2.take ksz, val_pos⟩ ::
          hintIterLoop fuel buf2 (rest2.drop ksz)
      else [.error "read_exact key failed"]

/-- All items yielded by a `HintFileIterator` over the given file bytes. -/
def hintFileItems (bytes : List Nat) : List (Except String ParsedHint) :=
  hintIterLoop (bytes.length + 1) (List.replicate 20 0) bytes

/-- Whether a byte is a UTF-8 continuation byte (`0x80..=0xBF`). -/
def isCont (b : Nat) : Bool :=
  0x80 ≤ b && b ≤ 0xBF

/-- Validity of a byte sequence as UTF-8, exactly as checked by Rust's
`str::from_utf8` / `String::from_utf8` (strict UTF-8: no overlong forms,
no surrogates, at most U+10FFFF). -/
def isValidUtf8 : List Nat → Bool
  | [] => true
  | b :: rest =>
    if b ≤ 0x7F then isValidUtf8 rest
    else if 0xC2 ≤ b && b ≤ 0xDF then
      match rest with
      | c1 :: rest2 => isCont c1 && isValidUtf8 rest2
      | _ => false
    else if b = 0xE0 then
      match rest with
      | c1 :: c2 :: rest2 =>
        (0xA0 ≤ c1 && c1 ≤ 0xBF) && isCont c2 && isValidUtf8 rest2
      | _ => false
    else if (0xE1 ≤ b && b ≤ 0xEC) || b = 0xEE || b = 0xEF then
      match rest with
      | c1 :: c2 :: rest2 => isCont c1 && isCont c2 && isValidUtf8 rest2
      | _ => false
    else if b = 0xED then
      match rest with
      | c1 :: c2 :: rest2 =>
        (0x80 ≤ c1 && c1 ≤ 0x9F) && isCont c2 && isValidUtf8 rest2
      | _ => false
    else if b = 0xF0 then
      match rest with
      | c1 :: c2 :: c3 :: rest2 =>
        (0x90 ≤ c1 && c1 ≤ 0xBF) && isCont c2 && isCont c3 && isValidUtf8 rest2
      | _ => false
    else if 0xF1 ≤ b && b ≤ 0xF3 then
      match rest with
      | c1 :: c2 :: c3 :: rest2 =>
        isCont c1 && isCont c2 && isCont c3 && isValidUtf8 rest2
      | _ => false
    else if b = 0xF4 then
      match rest with
      | c1 :: c2 :: c3 :: rest2 =>
        (0x80 ≤ c1 && c1 ≤ 0x8F) && isCont c2 && isCont c3 && isValidUtf8 rest2
      | _ => false
    else false

/-- The process-level outcome of a restore: a built key directory, a
returned `Err`, or a panic (an `unwrap` of a failed UTF-8 decode aborts
the process rather than returning an error). -/
inductive RestoreOutcome where
  | ok (kd : KeyDir)
  | err (msg : String)
  | panic
  deriving DecidableEq

/-- The install loop of `DataFileRestore::restore` over the iterator's
items: each `Ok` record is installed via
`key_dir.put(String::from_utf8(key).unwrap(), ...)` (restore.rs:22), which
panics on a non-UTF-8 key (modelled as `none`); the stored `String` key
has exactly the raw key bytes when decoding succeeds.  `Err` items are
skipped by the `if let Ok` pattern. -/
def dataRestoreFold : List (Except String ParsedRecord) → Nat → KeyDir → Option KeyDir
  | [], _, kd => some kd
  | .error _ :: rest, active, kd => dataRestoreFold rest active kd
  | .ok e :: rest, active, kd =>
    if isValidUtf8 e.key then
      dataRestoreFold rest active (keyDirPut kd e.key ⟨active, e.vsz, e.val_pos, e.tstamp⟩)
    else none

/-- Embedding of `DataFileRestore::restore` (`restore.rs`): iterate the
records of the single file named `active_file_num` and install every
successfully parsed record in the key directory pointing at
`active_file_num` (panicking on a non-UTF-8 key).  Note: this replays
only the active file, and installs tombstone records like any other
record. -/
def dataFileRestore (active_file_num : Nat) (bytes : List Nat) (kd : KeyDir) : Option KeyDir :=
  dataRestoreFold (dataFileRecords bytes) active_file_num kd

/-- First loop of `HintFileRestore::restore` (`restore.rs`): stream the
hint file, installing every entry at `file_id = active_file_num - 1`; a
failed `read_exact` of the key aborts the whole restore with the error
(the `?` operator), and the install
`key_dir.put(String::from_utf8(key).unwrap(), ...)` (restore.rs:64)
panics on a non-UTF-8 key.  The `active - 1` is a `usize` subtraction; a
hint file only exists after a merge, which requires `active ≥ 1`, so the
Nat truncation at 0 is unreachable in engine states. -/
def hintRestoreLoop : Nat → List Nat → List Nat → Nat → KeyDir → RestoreOutcome
  | 0, _, _, _, kd => .ok kd
  | fuel + 1, buf, rest, active, kd =>
    let chunk := rest.take 20
    if chunk.length = 0 then .ok kd
    else
      let buf2 := chunk ++ buf.drop chunk.length
      let tstamp := decode32 buf2
      let ksz := decode32 (buf2.drop 4)
      let vsz := decode32 (buf2.drop 8)
      let val_pos := decode64 (buf2.drop 12)
      let rest2 := rest.drop chunk.length
      if ksz ≤ rest2.length then
        if isValidUtf8 (rest2.take ksz) then
          hintRestoreLoop fuel buf2 (rest2.drop ksz) active
            (keyDirPut kd (rest2.take ksz) ⟨active - 1, vsz, val_pos, tstamp⟩)
        else .panic
      else .err "read_exact key failed"

/-- Second loop of `HintFileRestore::restore`: stream the active data
file (its own inline 16-byte-header parser, which never reads the crc
bytes).  The value is decoded with `str::from_utf8(&val).unwrap()`
(restore.rs:95), a panic on a non-UTF-8 value; a `TOMBSTONE` value
deletes the raw key bytes (`key_dir.del(&key)`, no key decode), and any
other value installs via `String::from_utf8(key).unwrap()`
(restore.rs:100), a panic on a non-UTF-8 key, with an entry at the active
id and `val_pos` taken from the stream position after the key. -/
def activeRestoreLoop : Nat → List Nat → List Nat → Nat → Nat → KeyDir → RestoreOutcome
  | 0, _, _, _, _, kd => .ok kd
  | fuel + 1, buf, rest, off, active, kd =>
    let chunk := rest.take 16
    if chunk.length = 0 then .ok kd
    else
      let buf2 := chunk ++ buf.drop chunk.length
      let tstamp := decode32 (buf2.drop 4)
      let ksz := decode32 (buf2.drop 8)
      let vsz := decode32 (buf2.drop 12)
      let rest2 := rest.drop chunk.length
      let off2 := off + chunk.length
      if ksz ≤ rest2.length then
        let key := rest2.take ksz
        let rest3 := rest2.drop ksz
        let val_pos := off2 + ksz
        if vsz ≤ rest3.length then
          let val := rest3.take vsz
          if isValidUtf8 val then
            if val = TOMBSTONE then
              activeRestoreLoop fuel buf2 (rest3.drop vsz) (val_pos + vsz) active
                (keyDirDel kd key)
            else if isValidUtf8 key then
              activeRestoreLoop fuel buf2 (rest3.drop vsz) (val_pos + vsz) active
                (keyDirPut kd key ⟨active, vsz, val_pos, tstamp⟩)
            else .panic
          else .panic
        else .err "read_exact val failed"
      else .err "read_exact key failed"

/-- Embedding of `HintFileRestore::restore`: replay the hint file, then
the active data file; an error return or a panic in the first loop means
the second never runs. -/
def hintFileRestore (active : Nat) (hintBytes activeBytes : List Nat)
    (kd : KeyDir) : RestoreOutcome :=
  match hintRestoreLoop (hintBytes.length + 1) (List.replicate 20 0) hintBytes active kd with
  | .err e => .err e
  | .panic => .panic
  | .ok kd2 =>
    activeRestoreLoop (activeBytes.length + 1) (List.replicate 16 0) activeBytes 0 active kd2

/-- A logical data-file record: crc and timestamp fields plus key and
value bytes (sizes are implicit). -/
structure DataRecord where
  crc : Nat
  tstamp : Nat
  key : List Nat
  val : List Nat
  deriving DecidableEq

/-- A logical hint-file entry. -/
structure HintEntry where
  tstamp : Nat
  key : List Nat
  vsz : Nat
  val_pos : Nat
  deriving DecidableEq

/-- Byte encoding of a logical record, via the engine's `to_db_entry`. -/
def encodeRecord (r : DataRecord) : List Nat :=
  to_db_entry r.crc r.tstamp r.key r.val

/-- A data file as the concatenation of its records' encodings. -/
def serializeRecords (rs : List DataRecord) : List Nat :=
  rs.foldr (fun r acc => encodeRecord r ++ acc) []

/-- Byte encoding of a logical hint entry (the layout of `to_hint_entry`,
with `vsz` given directly instead of via a value buffer). -/
def encodeHintEntry (e : HintEntry) : List Nat :=
  be32 e.tstamp ++ be32 e.key.length ++ be32 e.vsz ++ be64 e.val_pos ++ e.key

/-- A hint file as the concatenation of its entries' encodings. -/
def serializeHints (hs : List HintEntry) : List Nat :=
  hs.foldr (fun e acc => encodeHintEntry e ++ acc) []

/-- Well-formedness of a logical record: the integer fields fit their
on-disk 32-bit encodings. -/
abbrev WFRecord (r : DataRecord) : Prop :=
  r.crc < 2 ^ 32 ∧ r.tstamp < 2 ^ 32 ∧ r.key.length < 2 ^ 32 ∧ r.val.length < 2 ^ 32

/-- Well-formedness of a logical hint entry. -/
abbrev WFHint (e : HintEntry) : Prop :=
  e.tstamp < 2 ^ 32 ∧ e.key.length < 2 ^ 32 ∧ e.vsz < 2 ^ 32 ∧ e.val_pos < 2 ^ 64

/-- The 16 header bytes of a record's encoding, right-associated for
parsing lemmas. -/
def recordHeader (r : DataRecord) : List Nat :=
  be32 r.crc ++ (be32 r.tstamp ++ (be32 r.key.length ++ be32 r.val.length))

/-- The 20 header bytes of a hint entry's encoding, right-associated. -/
def hintHeader (e : HintEntry) : List Nat :=
  be32 e.tstamp ++ (be32 e.key.length ++ (be32 e.vsz ++ be64 e.val_pos))

/-- The successfully parsed records of a well-formed stream starting at
offset `off` (the `Ok` payloads of `parsedList`). -/
def parsedOk : List DataRecord → Nat → List ParsedRecord
  | [], _ => []
  | r :: rest, off =>
    ⟨r.crc, r.tstamp, r.key.length, r.val.length, r.key, r.val, off + 16 + r.key.length⟩ ::
      parsedOk rest (off + (16 + r.key.length + r.val.length))

/-- The parsed form of a well-formed record stream starting at absolute
offset `off`: each record parses with its sizes and with
`val_pos = off + 16 + ksz`. -/
def parsedList : List DataRecord → Nat → List (Except String ParsedRecord)
  | [], _ => []
  | r :: rest, off =>
    .ok ⟨r.crc, r.tstamp, r.key.length, r.val.length, r.key, r.val, off + 16 + r.key.length⟩ ::
      parsedList rest (off + (16 + r.key.length + r.val.length))

/-- Written from the words of claim C7: install every hint entry at
`file_id = active_id - 1`. -/
def specHintReplay (active : Nat) (hs : List HintEntry) (kd : KeyDir) : KeyDir :=
  hs.foldl (fun kd e => keyDirPut kd e.key ⟨active - 1, e.vsz, e.val_pos, e.tstamp⟩) kd

/-- Written from the words of claim C7: replay the active data file so
that records with value `TOMBSTONE` delete their key and all other records
install or overwrite an entry pointing at the active id (at that record's
value offset). -/
def specActiveReplay (active : Nat) : List DataRecord → Nat → KeyDir → KeyDir
  | [], _, kd => kd
  | r :: rest, off, kd =>
    let kd2 := if r.val = TOMBSTONE then keyDirDel kd r.key
               else keyDirPut kd r.key ⟨active, r.val.length, off + 16 + r.key.length, r.tstamp⟩
    specActiveReplay active rest (off + (16 + r.key.length + r.val.length)) kd2

/-- File-system side effects performed by `HydraDB::merge`, in program
order. -/
inductive FsEvent where
  | writeTemp
  | writeHint
  | removeFile (id : Nat)
  | renameTemp (target : Nat)
  | removeTempFile
  | removeHintFile
  deriving DecidableEq

/-- The evolving state of `HydraDB::merge`: key directory, bytes written
to `temp` and `hint`, the running counter `cur_val_offset`, the
`temp_file_has_data` flag, and the emitted file-system events. -/
structure MergeState where
  kd : KeyDir
  tempBytes : List Nat
  hintBytes : List Nat
  cur_val_offset : Nat
  temp_file_has_data : Bool
  events : List FsEvent
  deriving DecidableEq

/-- Body of the merge loop (`hydradb.rs`, `HydraDB::merge`): a record is
live when the key directory's current entry for its key has this file id
and this exact `val_pos`; a live record is appended to `temp`, a hint
entry with `val_pos = cur_val_offset + 16 + ksz` is appended to `hint`
(the counter then advances by the record encoding's length), and the key
directory entry is rewritten to point at file `cur_id - 1`. -/
def mergeRecord (cur_id fid : Nat) (st : MergeState) (e : ParsedRecord) : MergeState :=
  match keyDirGet st.kd e.key with
  | none => st
  | some entry =>
    if entry.file_id = fid ∧ entry.val_pos = e.val_pos then
      let rec_bytes := to_db_entry e.crc e.tstamp e.key e.val
      let val_pos := st.cur_val_offset + 16 + e.key.length
      let hint_bytes := to_hint_entry e.tstamp e.key e.val val_pos
      { kd := keyDirPut st.kd e.key ⟨cur_id - 1, e.val.length, val_pos, e.tstamp⟩,
        tempBytes := st.tempBytes ++ rec_bytes,
        hintBytes := st.hintBytes ++ hint_bytes,
        cur_val_offset := st.cur_val_offset + rec_bytes.length,
        temp_file_has_data := true,
        events := st.events ++ [.writeTemp, .writeHint] }
    else st

/-- The records processed by the merge's `next_into` loop: every parsed
record up to the first error.  On a short read the Rust loop would process
one entry whose buffers `read_exact` left in an unspecified state and then
stop (the reader is at end-of-file); the model stops at the error, and all
merge theorems concern well-formed files, where no error occurs. -/
def okRecords : List (Except String ParsedRecord) → List ParsedRecord
  | [] => []
  | .ok e :: rest => e :: okRecords rest
  | .error _ :: _ => []

/-- Merge one immutable file's bytes into the merge state. -/
def mergeFile (cur_id : Nat) (st : MergeState) (fid : Nat) (bytes : List Nat) : MergeState :=
  (okRecords (dataFileRecords bytes)).foldl (mergeRecord cur_id fid) st

/-- The merge loop over the immutable input files in the given order. -/
def mergeLoop (cur_id : Nat) (inputs : List (Nat × List Nat)) (kd : KeyDir) : MergeState :=
  inputs.foldl (fun st p => mergeFile cur_id st p.1 p.2) ⟨kd, [], [], 0, false, []⟩

/-- Insert into an ascending list (for the `files.sort()` call). -/
def insertAsc (n : Nat) : List Nat → List Nat
  | [] => [n]
  | m :: t => if n ≤ m then n :: m :: t else m :: insertAsc n t

/-- Ascending sort of the numeric file names. -/
def sortIds (l : List Nat) : List Nat :=
  l.foldr insertAsc []

/-- Embedding of `HydraDB::merge`: no-op when `cur_id = 0`; otherwise run
the merge loop over all numeric files except the last (the active file) in
ascending order, then remove every input file, and finally either rename
`temp` to `cur_id - 1` (when it received data) or delete `temp` and
`hint`. -/
def mergeDB (s : HydraDB) : MergeState :=
  if s.cur_id = 0 then ⟨s.key_dir, [], [], 0, false, []⟩
  else
    let ids := sortIds (s.files.map (fun p => p.1))
    let inputs := ids.dropLast
    let st := mergeLoop s.cur_id (inputs.map (fun i => (i, (lookupFile s.files i).getD []))) s.key_dir
    let st2 := { st with events := st.events ++ inputs.map (fun i => FsEvent.removeFile i) }
    if st2.temp_file_has_data then
      { st2 with events := st2.events ++ [.renameTemp (s.cur_id - 1)] }
    else
      { st2 with events := st2.events ++ [.removeTempFile, .removeHintFile] }

/-- The spec-side state of the merge loop for claim C4: the key directory,
the logical records copied to `temp`, the hint entries, and the running
counter `cur_temp_offset`. -/
structure SpecMergeState where
  kd : KeyDir
  temp : List DataRecord
  hint : List HintEntry
  cur_temp_offset : Nat
  deriving DecidableEq

/-- Written from the words of claim C4: one record of an immutable file,
considered at its in-file value offset `rec_val_pos`, is copied to `temp`
if and only if the key directory's current entry for its key has this file
id and this exact `val_pos`; a copied record gets a hint entry with
`val_pos = cur_temp_offset + 16 + ksz`, the counter advances by
`16 + ksz + vsz`, and the key directory entry becomes
`(active_id - 1, val_sz, new val_pos, tstamp)`. -/
def specMergeStep (active_id fid : Nat) (st : SpecMergeState) (r : DataRecord)
    (rec_val_pos : Nat) : SpecMergeState :=
  match keyDirGet st.kd r.key with
  | some entry =>
    if entry.file_id = fid ∧ entry.val_pos = rec_val_pos then
      let new_val_pos := st.cur_temp_offset + 16 + r.key.length
      { kd := keyDirPut st.kd r.key ⟨active_id - 1, r.val.length, new_val_pos, r.tstamp⟩,
        temp := st.temp ++ [r],
        hint := st.hint ++ [⟨r.tstamp, r.key, r.val.length, new_val_pos⟩],
        cur_temp_offset := st.cur_temp_offset + (16 + r.key.length + r.val.length) }
    else st
  | none => st

/-- Written from the words of claim C4: stream one immutable file's
records, tracking each record's in-file value offset. -/
def specMergeFile (active_id fid : Nat) : SpecMergeState → List DataRecord → Nat → SpecMergeState
  | st, [], _ => st
  | st, r :: rest, inOff =>
    specMergeFile active_id fid
      (specMergeStep active_id fid st r (inOff + 16 + r.key.length))
      rest (inOff + (16 + r.key.length + r.val.length))

/-- The spec-side merge loop over the immutable files. -/
def specMergeLoop (active_id : Nat) (inputs : List (Nat × List DataRecord))
    (kd : KeyDir) : SpecMergeState :=
  inputs.foldl (fun st p => specMergeFile active_id p.1 st p.2 0) ⟨kd, [], [], 0⟩

/-- The refinement relation between the byte-level merge state and the
spec-side merge state: same key directory, `temp` and `hint` bytes are the
serializations of the copied records and hint entries, the running counter
agrees, and the data flag is set exactly when something was copied. -/
def MergeRel (st : MergeState) (sst : SpecMergeState) : Prop :=
  st.kd = sst.kd ∧ st.tempBytes = serializeRecords sst.temp ∧
  st.hintBytes = serializeHints sst.hint ∧
  st.cur_val_offset = sst.cur_temp_offset ∧
  st.temp_file_has_data = !sst.temp.isEmpty

/-- Recognizer for original-file removal events. -/
def isRemoveEvent : FsEvent → Bool
  | .removeFile _ => true
  | _ => false

/-- Recognizer for the temp-rename commit event. -/
def isRenameEvent : FsEvent → Bool
  | .renameTemp _ => true
  | _ => false

/-- The ordering asserted by claim C5: every rename event precedes every
original-file removal event in the merge's trace. -/
abbrev renameBeforeRemoves (evs : List FsEvent) : Prop :=
  ∀ i, i < evs.length → ∀ j, j < evs.length →
    isRemoveEvent (evs.getD i FsEvent.writeTemp) = true →
    isRenameEvent (evs.getD j FsEvent.writeTemp) = true → j < i

deriving instance DecidableEq for Except

theorem keyDirGet_put (kd : KeyDir) (k k' : List Nat) (e : KeyDirEntry) :
    keyDirGet (keyDirPut kd k e) k' = if k' = k then some e else keyDirGet kd k' := by
  induction kd with
  | nil =>
    by_cases h : k' = k
    · simp [keyDirPut, keyDirGet, h]
    · have h' : ¬k = k' := fun hh => h hh.symm
      simp [keyDirPut, keyDirGet, h, h']
  | cons p t ih =>
    by_cases hk : p.1 = k
    · by_cases h : k' = k
      · simp [keyDirPut, hk, keyDirGet, h]
      · have h' : ¬k = k' := fun hh => h hh.symm
        have hpk : ¬p.1 = k' := by rw [hk]; exact h'
        simp [keyDirPut, hk, keyDirGet, h, h', hpk]
    · by_cases hk' : p.1 = k'
      · have h : ¬k' = k := by rw [← hk']; exact fun hh => hk hh
        simp [keyDirPut, hk, keyDirGet, hk', h]
      · simp [keyDirPut, hk, keyDirGet, hk', ih]

theorem keyDirGet_del (kd : KeyDir) (k k' : List Nat) :
    keyDirGet (keyDirDel kd k) k' = if k' = k then none else keyDirGet kd k' := by
  induction kd with
  | nil => simp [keyDirDel, keyDirGet]
  | cons p t ih =>
    by_cases hk : p.1 = k
    · by_cases h : k' = k
      · subst h; simp [keyDirDel, hk, ih]
      · have h' : ¬k = k' := fun hh => h hh.symm
        simp [keyDirDel, hk, keyDirGet, ih, h, h']
    · by_cases hk' : p.1 = k'
      · have h : ¬k' = k := by rw [← hk']; exact fun hh => hk hh
        simp [keyDirDel, hk, keyDirGet, hk', h]
      · simp [keyDirDel, hk, keyDirGet, hk', ih]

theorem lookupFile_setFile (fs : Files) (id id' : Nat) (b : List Nat) :
    lookupFile (setFile fs id b) id' = if id' = id then some b else lookupFile fs id' := by
  induction fs with
  | nil =>
    by_cases h : id' = id
    · simp [setFile, lookupFile, h]
    · have h' : ¬id = id' := fun hh => h hh.symm
      simp [setFile, lookupFile, h, h']
  | cons p t ih =>
    by_cases hk : p.1 = id
    · by_cases h : id' = id
      · simp [setFile, hk, lookupFile, h]
      · have h' : ¬id = id' := fun hh => h hh.symm
        have hpk : ¬p.1 = id' := by rw [hk]; exact h'
        simp [setFile, hk, lookupFile, h, h', hpk]
    · by_cases hk' : p.1 = id'
      · have h : ¬id' = id := by rw [← hk']; exact fun hh => hk hh
        simp [setFile, hk, lookupFile, hk', h]
      · simp [setFile, hk, lookupFile, hk', ih]

theorem lookupFile_appendFile (fs : Files) (id id' : Nat) (b : List Nat) :
    lookupFile (appendFile fs id b) id' =
      if id' = id then some (((lookupFile fs id).getD []) ++ b) else lookupFile fs id' := by
  simp [appendFile, lookupFile_setFile]

theorem lookupFile_append_new (fs : Files) (id id' : Nat)
    (hnone : lookupFile fs id = none) :
    lookupFile (fs ++ [(id, [])]) id' =
      if id' = id then some [] else lookupFile fs id' := by
  induction fs with
  | nil =>
    by_cases h : id' = id
    · simp [lookupFile, h]
    · have h' : ¬id = id' := fun hh => h hh.symm
      simp [lookupFile, h, h']
  | cons p t ih =>
    have hk : ¬p.1 = id := by
      intro hh
      simp [lookupFile, hh] at hnone
    have htail : lookupFile t id = none := by
      simpa [lookupFile, hk] using hnone
    by_cases hk' : p.1 = id'
    · have h : ¬id' = id := by rw [← hk']; exact hk
      simp [lookupFile, hk', h]
    · simp [lookupFile, hk', ih htail]

theorem lookupFile_openAppend (fs : Files) (id id' : Nat) :
    lookupFile (openAppend fs id) id' =
      if id' = id then some ((lookupFile fs id).getD []) else lookupFile fs id' := by
  unfold openAppend
  cases hh : lookupFile fs id with
  | none =>
    simp only [hh, Option.isNone_none, if_true]
    rw [lookupFile_append_new fs id id' hh]
    simp
  | some c =>
    simp only [hh, Option.isNone_some, Bool.false_eq_true, if_false]
    by_cases hid : id' = id
    · subst hid; simp [hh]
    · simp [hid]

/-- C3: whenever `16 + |k| + |v| + current_length >= file_size_threshold`,
`put` increments the active file id by one and resets the current length and
running value offset to zero before computing the new record's position, so
the returned entry points at the new file with `val_pos = 16 + ksz`, the
post-write counters equal exactly one record's size, and a freshly created
rotated file contains exactly the new record. -/
theorem c3_rotation_on_put (s : HydraDB) (k v : List Nat) (ts : Nat)
    (h : s.max_file_size_threshold ≤ 16 + k.length + v.length + s.cur_file_size) :
    (putWithFileSizeCheck s k v ts).1.cur_id = s.cur_id + 1 ∧
    (putWithFileSizeCheck s k v ts).2.file_id = s.cur_id + 1 ∧
    (putWithFileSizeCheck s k v ts).2.val_pos = 16 + k.length ∧
    (putWithFileSizeCheck s k v ts).1.cur_file_size = 16 + k.length + v.length ∧
    (putWithFileSizeCheck s k v ts).1.last_val_offset = 16 + k.length + v.length ∧
    (lookupFile s.files (s.cur_id + 1) = none →
      lookupFile (putWithFileSizeCheck s k v ts).1.files (s.cur_id + 1) =
        some (to_db_entry (calc_crc ts k.length v.length k v) ts k v)) := by
  have hrw : putWithFileSizeCheck s k v ts =
      writeRecord
        { s with
            cur_id := s.cur_id + 1,
            files := openAppend s.files (s.cur_id + 1),
            last_val_offset := 0,
            cur_file_size := 0 }
        k v ts := by
    unfold putWithFileSizeCheck
    rw [if_pos h]
  rw [hrw]
  refine ⟨rfl, rfl, by simp [writeRecord], by simp [writeRecord], by simp [writeRecord], ?_⟩
  intro hnone
  simp only [writeRecord]
  rw [lookupFile_appendFile, if_pos rfl, lookupFile_openAppend, if_pos rfl, hnone]
  simp

/-- Witness for C3 at a concrete input: a fresh cask with threshold 10, so
the very first one-byte put rotates. -/
theorem c3_rotation_on_put_witness :
    (putWithFileSizeCheck (newHydraDB 10) [97] [98] 0).2.val_pos = 16 + [97].length ∧
    (putWithFileSizeCheck (newHydraDB 10) [97] [98] 0).1.cur_id = (newHydraDB 10).cur_id + 1 :=
  ⟨(c3_rotation_on_put (newHydraDB 10) [97] [98] 0 (by decide)).2.2.1,
   (c3_rotation_on_put (newHydraDB 10) [97] [98] 0 (by decide)).1⟩

/-- C6: `del(k)` returns exactly the presence of `k` in the key directory;
when present it writes a record with value `TOMBSTONE` through the same
write path as `put` (the resulting file state equals a
`put_with_file_size_check` of `TOMBSTONE`), removes `k` from the directory,
after which `get(k)` is absent and a second `del(k)` returns `false`. -/
theorem c6_del_semantics (s : HydraDB) (k : List Nat) (ts ts2 : Nat) :
    (delDB s k ts).2 = keyDirHas s.key_dir k ∧
    (keyDirHas s.key_dir k = true →
      (delDB s k ts).1.files = (putWithFileSizeCheck s k TOMBSTONE ts).1.files ∧
      keyDirGet (delDB s k ts).1.key_dir k = none ∧
      getValue (delDB s k ts).1 k = .ok none ∧
      (delDB (delDB s k ts).1 k ts2).2 = false) := by
  by_cases h : keyDirHas s.key_dir k
  · have hget : keyDirGet ((delDB s k ts).1).key_dir k = none := by
      simp [delDB, h, keyDirGet_del]
    refine ⟨by simp [delDB, h], fun _ => ⟨by simp [delDB, h], hget, by simp [getValue, hget], ?_⟩⟩
    generalize hS : (delDB s k ts).1 = t at hget
    have h2 : keyDirHas t.key_dir k = false := by
      simp [keyDirHas, hget]
    simp [delDB, h2]
  · have h' : keyDirHas s.key_dir k = false := by simpa using h
    exact ⟨by simp [delDB, h'], fun hc => absurd hc (by simp [h'])⟩

/-- Witness for C6 at a concrete input: put then del of key `[97]`. -/
theorem c6_del_semantics_witness :
    getValue (delDB (putDB (newHydraDB 1048576) [97] [98] 0) [97] 1).1 [97] = .ok none ∧
    (delDB (delDB (putDB (newHydraDB 1048576) [97] [98] 0) [97] 1).1 [97] 2).2 = false :=
  ⟨((c6_del_semantics (putDB (newHydraDB 1048576) [97] [98] 0) [97] 1 2).2 (by decide)).2.2.1,
   ((c6_del_semantics (putDB (newHydraDB 1048576) [97] [98] 0) [97] 1 2).2 (by decide)).2.2.2⟩

/-- C9: when the key-directory entry for a key records `val_sz` bytes at
`val_pos` in a file that holds fewer than `val_pos + val_sz` bytes, `get`
returns an error rather than short data. -/
theorem c9_get_short_read_error (s : HydraDB) (k : List Nat) (e : KeyDirEntry)
    (f : List Nat)
    (h1 : keyDirGet s.key_dir k = some e)
    (h2 : lookupFile s.files e.file_id = some f)
    (h3 : f.length < e.val_pos + e.val_sz) :
    getValue s k = .error "read_exact_at failed" := by
  simp [getValue, h1, h2, Nat.not_le.mpr h3]

/-- Witness for C9 at a concrete input: an entry demanding 5 bytes at
offset 2 of a 3-byte file. -/
theorem c9_get_short_read_error_witness :
    getValue ⟨0, [([107], ⟨0, 5, 2, 0⟩)], 100, 0, 0, [(0, [1, 2, 3])]⟩ [107] =
      .error "read_exact_at failed" :=
  c9_get_short_read_error _ [107] ⟨0, 5, 2, 0⟩ [1, 2, 3] rfl rfl (by decide)

/-- C10: `list_all` returns the distinguished absent result `None` exactly
when the key directory is empty, and `Some` of the key list exactly when at
least one key is present. -/
theorem c10_list_all_empty (s : HydraDB) :
    (listAll s = none ↔ s.key_dir = []) ∧
    (listAll s = some (s.key_dir.map fun p => p.1) ↔ s.key_dir ≠ []) := by
  unfold listAll keyDirKeys
  cases hkd : s.key_dir with
  | nil => simp
  | cons p t => simp

theorem to_db_entry_length (c t : Nat) (k v : List Nat) :
    (to_db_entry c t k v).length = 16 + k.length + v.length := by
  simp [to_db_entry, be32]
  omega

theorem to_db_entry_split (c t : Nat) (k v : List Nat) :
    to_db_entry c t k v =
      (be32 c ++ be32 t ++ be32 k.length ++ be32 v.length) ++ (k ++ v) := by
  simp [to_db_entry, List.append_assoc]

theorem to_db_entry_drop16 (c t : Nat) (k v : List Nat) :
    (to_db_entry c t k v).drop 16 = k ++ v := by
  rw [to_db_entry_split]
  exact List.drop_left' (by simp [be32])

theorem slice_of_append (f g : List Nat) (pos sz : Nat) (h : pos + sz ≤ f.length) :
    ((f ++ g).drop pos).take sz = (f.drop pos).take sz := by
  rw [List.drop_append_of_le_length (by omega),
    List.take_append_of_le_length (by simp [List.length_drop]; omega)]

theorem record_value_slice (c t : Nat) (k v f0 : List Nat) :
    ((f0 ++ to_db_entry c t k v).drop (f0.length + (16 + k.length))).take v.length = v := by
  rw [← List.drop_drop, List.drop_left, ← List.drop_drop, to_db_entry_drop16,
    List.drop_left]
  exact List.take_length v

theorem writeRecord_files (s : HydraDB) (k v : List Nat) (ts : Nat) :
    (writeRecord s k v ts).1.files =
      appendFile s.files s.cur_id (to_db_entry (calc_crc ts k.length v.length k v) ts k v) := rfl

theorem writeRecord_entry (s : HydraDB) (k v : List Nat) (ts : Nat) :
    (writeRecord s k v ts).2 =
      ⟨s.cur_id, v.length, s.last_val_offset + 16 + k.length, ts⟩ := rfl

theorem writeRecord_cur_id (s : HydraDB) (k v : List Nat) (ts : Nat) :
    (writeRecord s k v ts).1.cur_id = s.cur_id := rfl

theorem writeRecord_lvo (s : HydraDB) (k v : List Nat) (ts : Nat) :
    (writeRecord s k v ts).1.last_val_offset =
      s.last_val_offset + (16 + k.length + v.length) := rfl

theorem lookupFile_writeRecord (s : HydraDB) (k v : List Nat) (ts : Nat) (id : Nat) :
    lookupFile (writeRecord s k v ts).1.files id =
      if id = s.cur_id then
        some (((lookupFile s.files s.cur_id).getD []) ++
          to_db_entry (calc_crc ts k.length v.length k v) ts k v)
      else lookupFile s.files id := by
  rw [writeRecord_files, lookupFile_appendFile]

theorem putWFSC_eq_pos (s : HydraDB) (k v : List Nat) (ts : Nat)
    (h : s.max_file_size_threshold ≤ 16 + k.length + v.length + s.cur_file_size) :
    putWithFileSizeCheck s k v ts =
      writeRecord
        { s with
            cur_id := s.cur_id + 1,
            files := openAppend s.files (s.cur_id + 1),
            last_val_offset := 0,
            cur_file_size := 0 }
        k v ts := by
  unfold putWithFileSizeCheck
  rw [if_pos h]

theorem putWFSC_eq_neg (s : HydraDB) (k v : List Nat) (ts : Nat)
    (h : ¬ s.max_file_size_threshold ≤ 16 + k.length + v.length + s.cur_file_size) :
    putWithFileSizeCheck s k v ts = writeRecord s k v ts := by
  unfold putWithFileSizeCheck
  rw [if_neg h]

theorem putWFSC_key_dir (s : HydraDB) (k v : List Nat) (ts : Nat) :
    (putWithFileSizeCheck s k v ts).1.key_dir = s.key_dir := by
  unfold putWithFileSizeCheck writeRecord
  split <;> rfl

theorem writeRecord_good (s : HydraDB) (k v : List Nat) (ts : Nat) (hg : Good s) :
    Good (writeRecord s k v ts).1 ∧
    entryReads (writeRecord s k v ts).1.files (writeRecord s k v ts).2 v := by
  obtain ⟨hlen, habove⟩ := hg
  refine ⟨⟨?_, ?_⟩, ?_⟩
  · rw [writeRecord_lvo, writeRecord_cur_id, lookupFile_writeRecord, if_pos rfl]
    simp [to_db_entry_length, hlen]
  · intro id hid
    rw [writeRecord_cur_id] at hid
    rw [lookupFile_writeRecord, if_neg (by omega)]
    exact habove id hid
  · rw [writeRecord_entry]
    refine ⟨((lookupFile s.files s.cur_id).getD []) ++
      to_db_entry (calc_crc ts k.length v.length k v) ts k v, ?_, ?_, ?_⟩
    · rw [lookupFile_writeRecord, if_pos rfl]
    · simp [to_db_entry_length]
      omega
    · have hpos : s.last_val_offset + 16 + k.length =
          ((lookupFile s.files s.cur_id).getD []).length + (16 + k.length) := by omega
      rw [hpos]
      exact record_value_slice _ _ _ _ _

theorem putWFSC_good (s : HydraDB) (k v : List Nat) (ts : Nat) (hg : Good s) :
    Good (putWithFileSizeCheck s k v ts).1 ∧
    entryReads (putWithFileSizeCheck s k v ts).1.files (putWithFileSizeCheck s k v ts).2 v := by
  by_cases h : s.max_file_size_threshold ≤ 16 + k.length + v.length + s.cur_file_size
  · rw [putWFSC_eq_pos s k v ts h]
    apply writeRecord_good
    obtain ⟨hlen, habove⟩ := hg
    constructor
    · show (0 : Nat) = _
      rw [show ({ s with
            cur_id := s.cur_id + 1,
            files := openAppend s.files (s.cur_id + 1),
            last_val_offset := 0,
            cur_file_size := 0 } : HydraDB).files = openAppend s.files (s.cur_id + 1) from rfl,
        lookupFile_openAppend, if_pos rfl, habove (s.cur_id + 1) (by omega)]
      simp
    · intro id hid
      rw [show ({ s with
            cur_id := s.cur_id + 1,
            files := openAppend s.files (s.cur_id + 1),
            last_val_offset := 0,
            cur_file_size := 0 } : HydraDB).cur_id = s.cur_id + 1 from rfl] at hid
      rw [show ({ s with
            cur_id := s.cur_id + 1,
            files := openAppend s.files (s.cur_id + 1),
            last_val_offset := 0,
            cur_file_size := 0 } : HydraDB).files = openAppend s.files (s.cur_id + 1) from rfl,
        lookupFile_openAppend, if_neg (by omega)]
      exact habove id (by omega)
  · rw [putWFSC_eq_neg s k v ts h]
    exact writeRecord_good s k v ts hg

theorem putWFSC_extends (s : HydraDB) (k v : List Nat) (ts : Nat) (id : Nat) (f : List Nat)
    (hf : lookupFile s.files id = some f) :
    ∃ g, lookupFile (putWithFileSizeCheck s k v ts).1.files id = some (f ++ g) := by
  by_cases h : s.max_file_size_threshold ≤ 16 + k.length + v.length + s.cur_file_size
  · rw [putWFSC_eq_pos s k v ts h, lookupFile_writeRecord]
    have hopen : ∀ id', lookupFile (openAppend s.files (s.cur_id + 1)) id' =
        if id' = s.cur_id + 1 then some ((lookupFile s.files (s.cur_id + 1)).getD [])
        else lookupFile s.files id' := fun id' => lookupFile_openAppend s.files _ id'
    by_cases hid : id = s.cur_id + 1
    · rw [if_pos hid]
      subst hid
      rw [hopen, if_pos rfl, hf]
      exact ⟨_, rfl⟩
    · rw [if_neg hid, hopen, if_neg hid]
      exact ⟨[], by rw [hf, List.append_nil]⟩
  · rw [putWFSC_eq_neg s k v ts h, lookupFile_writeRecord]
    by_cases hid : id = s.cur_id
    · rw [if_pos hid]
      subst hid
      rw [hf]
      exact ⟨_, rfl⟩
    · rw [if_neg hid]
      exact ⟨[], by rw [hf, List.append_nil]⟩

theorem entryReads_extend (fs fs' : Files) (e : KeyDirEntry) (v : List Nat)
    (hext : ∀ id f, lookupFile fs id = some f → ∃ g, lookupFile fs' id = some (f ++ g))
    (h : entryReads fs e v) : entryReads fs' e v := by
  obtain ⟨f, hf, hle, hsl⟩ := h
  obtain ⟨g, hg⟩ := hext _ _ hf
  refine ⟨f ++ g, hg, by simp; omega, ?_⟩
  rw [slice_of_append _ _ _ _ hle, hsl]

theorem getValue_ok_iff (s : HydraDB) (k w : List Nat) :
    getValue s k = .ok (some w) ↔
      ∃ e, keyDirGet s.key_dir k = some e ∧ entryReads s.files e w := by
  unfold getValue entryReads
  cases hk : keyDirGet s.key_dir k with
  | none => simp
  | some e =>
    cases hf : lookupFile s.files e.file_id with
    | none => simp [hf]
    | some f =>
      by_cases hle : e.val_pos + e.val_sz ≤ f.length
      · simp [hf, hle, eq_comm]
      · simp [hf, hle]

theorem putDB_key_dir (s : HydraDB) (k v : List Nat) (ts : Nat) :
    (putDB s k v ts).key_dir = keyDirPut s.key_dir k (putWithFileSizeCheck s k v ts).2 := by
  show keyDirPut (putWithFileSizeCheck s k v ts).1.key_dir k _ = _
  rw [putWFSC_key_dir]

theorem putDB_files (s : HydraDB) (k v : List Nat) (ts : Nat) :
    (putDB s k v ts).files = (putWithFileSizeCheck s k v ts).1.files := rfl

theorem putDB_good (s : HydraDB) (k v : List Nat) (ts : Nat) (hg : Good s) :
    Good (putDB s k v ts) :=
  (putWFSC_good s k v ts hg).1

theorem getValue_putDB_self (s : HydraDB) (k v : List Nat) (ts : Nat) (hg : Good s) :
    getValue (putDB s k v ts) k = .ok (some v) := by
  rw [getValue_ok_iff]
  refine ⟨(putWithFileSizeCheck s k v ts).2, ?_, ?_⟩
  · rw [putDB_key_dir, keyDirGet_put, if_pos rfl]
  · rw [putDB_files]
    exact (putWFSC_good s k v ts hg).2

theorem getValue_putDB_other (s : HydraDB) (k v : List Nat) (ts : Nat) (k' w : List Nat)
    (hne : k' ≠ k) (h : getValue s k' = .ok (some w)) :
    getValue (putDB s k v ts) k' = .ok (some w) := by
  rw [getValue_ok_iff] at h ⊢
  obtain ⟨e, he, hr⟩ := h
  refine ⟨e, ?_, ?_⟩
  · rw [putDB_key_dir, keyDirGet_put, if_neg hne]
    exact he
  · rw [putDB_files]
    exact entryReads_extend _ _ _ _ (fun id f hf => putWFSC_extends s k v ts id f hf) hr

theorem applyPuts_cons (s : HydraDB) (p : List Nat × List Nat × Nat)
    (t : List (List Nat × List Nat × Nat)) :
    applyPuts s (p :: t) = applyPuts (putDB s p.1 p.2.1 p.2.2) t := rfl

theorem getValue_applyPuts_other (l : List (List Nat × List Nat × Nat)) :
    ∀ (s : HydraDB) (k w : List Nat), (∀ p ∈ l, p.1 ≠ k) →
      getValue s k = .ok (some w) → getValue (applyPuts s l) k = .ok (some w) := by
  induction l with
  | nil => intro s k w _ h; exact h
  | cons p t ih =>
    intro s k w hall h
    rw [applyPuts_cons]
    exact ih _ _ _ (fun q hq => hall q (List.mem_cons_of_mem p hq))
      (getValue_putDB_other s p.1 p.2.1 p.2.2 k w (hall p (List.mem_cons_self p t)).symm h)

theorem roundTrip_aux (l : List (List Nat × List Nat × Nat)) :
    ∀ s : HydraDB, Good s → l.Pairwise (fun a b => a.1 ≠ b.1) →
      ∀ p ∈ l, getValue (applyPuts s l) p.1 = .ok (some p.2.1) := by
  induction l with
  | nil => intro s _ _ p hp; exact absurd hp (List.not_mem_nil p)
  | cons q t ih =>
    intro s hg hp p hmem
    rw [applyPuts_cons]
    have hpc := List.pairwise_cons.mp hp
    rcases List.mem_cons.mp hmem with hq | hmem'
    · subst hq
      exact getValue_applyPuts_other t _ _ _
        (fun r hr => (hpc.1 r hr).symm)
        (getValue_putDB_self s p.1 p.2.1 p.2.2 hg)
    · exact ih _ (putDB_good s q.1 q.2.1 q.2.2 hg) hpc.2 p hmem'

theorem newHydraDB_good (threshold : Nat) : Good (newHydraDB threshold) := by
  constructor
  · simp [newHydraDB, lookupFile]
  · intro id hid
    simp only [newHydraDB]
    unfold lookupFile
    rw [if_neg (by omega)]
    rfl

/-- C1: for any sequence of `put(k_i, v_i)` with pairwise-distinct keys
applied to a freshly opened cask (any threshold, so rotations may occur),
a subsequent `get(k_i)` returns `Some(v_i)` for every element of the
sequence; `put` flushes, so the record bytes are in the file state the
read path consults. -/
theorem c1_round_trip (threshold : Nat) (l : List (List Nat × List Nat × Nat))
    (hdist : l.Pairwise (fun a b => a.1 ≠ b.1))
    (k v : List Nat) (ts : Nat) (hmem : (k, v, ts) ∈ l) :
    getValue (applyPuts (newHydraDB threshold) l) k = .ok (some v) :=
  roundTrip_aux l (newHydraDB threshold) (newHydraDB_good threshold) hdist (k, v, ts) hmem

/-- Witness for C1 at a concrete input: three puts with distinct keys at
threshold 60 (the third put rotates the file), each readable afterwards. -/
theorem c1_round_trip_witness :
    getValue (applyPuts (newHydraDB 60)
      [([97, 98, 104, 105], [114, 117, 115, 116], 0),
       ([112, 97, 100, 115], [106, 97, 118, 97], 1),
       ([115, 119, 97, 112], [46, 110, 101, 116], 2)]) [97, 98, 104, 105] =
      .ok (some [114, 117, 115, 116]) :=
  c1_round_trip 60 _ (by decide) [97, 98, 104, 105] [114, 117, 115, 116] 0 (by decide)

/-- C2 fails on the code (code bug): recovery on the data-file path
replays only the single active file and installs tombstone records as
live entries.  First conjunct block: after `put k v; del k` on a fresh
cask (single file 0), reopening installs `k` from its tombstone record
even though the in-memory directory obtained by applying the sequence
does not contain `k`.  Second block: after the three-put rotation
scenario (threshold 60), the active id is 1 and reopening loses the key
`abhi` whose record lives in immutable file 0, though the in-memory
directory contains it. -/
theorem c2_recovery_evaluation :
    (let s := (delDB (putDB (newHydraDB 1048576) [107] [118] 0) [107] 1).1
     let recovered := dataFileRestore s.cur_id ((lookupFile s.files s.cur_id).getD []) []
     recovered.map (fun kd => keyDirHas kd [107]) = some true ∧
       keyDirHas s.key_dir [107] = false) ∧
    (let s := applyPuts (newHydraDB 60)
        [([97, 98, 104, 105], [114, 117, 115, 116], 0),
         ([112, 97, 100, 115], [106, 97, 118, 97], 1),
         ([115, 119, 97, 112], [46, 110, 101, 116], 2)]
     let recovered := dataFileRestore s.cur_id ((lookupFile s.files s.cur_id).getD []) []
     s.cur_id = 1 ∧ recovered.map (fun kd => keyDirHas kd [97, 98, 104, 105]) = some false ∧
       keyDirHas s.key_dir [97, 98, 104, 105] = true) := by
  decide

/-- C8 fails on the code (code bug): a data file of five bytes (a
truncated final header) is decoded against the residual zero buffer and
yielded as an ordinary record with `ksz = vsz = 0`, then iteration stops
cleanly — no corruption error; likewise the hint iterator absorbs a
four-byte truncated header.  By contrast a truncation after a complete
header is reported, and a zero-length file is a valid empty sequence. -/
theorem c8_truncation_evaluation :
    dataFileRecords [1, 2, 3, 4, 5] = [.ok ⟨16909060, 83886080, 0, 0, [], [], 5⟩] ∧
    hintFileItems [0, 0, 0, 7] = [.ok ⟨7, 0, 0, [], 0⟩] ∧
    dataFileRecords [0, 0, 0, 0, 0, 0, 0, 0, 0, 0, 0, 4, 0, 0, 0, 0, 97, 98] =
      [.error "read_exact key failed"] ∧
    dataFileRecords [] = [] ∧
    hintFileItems [] = [] := by
  decide

/-- C5 fails on the code: in the merge trace of the concrete three-put
rotation scenario, the original immutable file 0 is removed at index 4
and `temp` is renamed only afterwards at index 5, so the claimed
rename-before-remove ordering is false. -/
theorem c5_counterexample_delete_before_rename :
    (mergeDB (applyPuts (newHydraDB 60)
        [([97, 98, 104, 105], [114, 117, 115, 116], 0),
         ([112, 97, 100, 115], [106, 97, 118, 97], 1),
         ([115, 119, 97, 112], [46, 110, 101, 116], 2)])).events =
      [.writeTemp, .writeHint, .writeTemp, .writeHint, .removeFile 0, .renameTemp 0] ∧
    ¬ renameBeforeRemoves
        (mergeDB (applyPuts (newHydraDB 60)
          [([97, 98, 104, 105], [114, 117, 115, 116], 0),
           ([112, 97, 100, 115], [106, 97, 118, 97], 1),
           ([115, 119, 97, 112], [46, 110, 101, 116], 2)])).events := by
  constructor
  · decide
  · decide

theorem mergeRecord_events_writes (cur_id fid : Nat) (st : MergeState) (e : ParsedRecord)
    (h : ∀ x ∈ st.events, x = FsEvent.writeTemp ∨ x = FsEvent.writeHint) :
    ∀ x ∈ (mergeRecord cur_id fid st e).events,
      x = FsEvent.writeTemp ∨ x = FsEvent.writeHint := by
  unfold mergeRecord
  cases keyDirGet st.kd e.key with
  | none => exact h
  | some entry =>
    by_cases hc : entry.file_id = fid ∧ entry.val_pos = e.val_pos
    · simp only [if_pos hc]
      intro x hx
      simp only [List.mem_append] at hx
      rcases hx with hx | hx
      · exact h x hx
      · simp at hx
        rcases hx with hx | hx
        · exact Or.inl hx
        · exact Or.inr hx
    · simp only [if_neg hc]
      exact h

theorem mergeFoldl_events_writes (cur_id fid : Nat) (rs : List ParsedRecord) :
    ∀ st : MergeState,
      (∀ x ∈ st.events, x = FsEvent.writeTemp ∨ x = FsEvent.writeHint) →
      ∀ x ∈ (rs.foldl (mergeRecord cur_id fid) st).events,
        x = FsEvent.writeTemp ∨ x = FsEvent.writeHint := by
  induction rs with
  | nil => intro st h; exact h
  | cons r t ih =>
    intro st h
    exact ih _ (mergeRecord_events_writes cur_id fid st r h)

theorem mergeLoop_events_writes (cur_id : Nat) (inputs : List (Nat × List Nat)) (kd : KeyDir) :
    ∀ x ∈ (mergeLoop cur_id inputs kd).events,
      x = FsEvent.writeTemp ∨ x = FsEvent.writeHint := by
  unfold mergeLoop
  have hgen : ∀ (l : List (Nat × List Nat)) (st : MergeState),
      (∀ x ∈ st.events, x = FsEvent.writeTemp ∨ x = FsEvent.writeHint) →
      ∀ x ∈ (l.foldl (fun st p => mergeFile cur_id st p.1 p.2) st).events,
        x = FsEvent.writeTemp ∨ x = FsEvent.writeHint := by
    intro l
    induction l with
    | nil => intro st h; exact h
    | cons p t ih =>
      intro st h
      exact ih _ (mergeFoldl_events_writes cur_id p.1 _ st h)
  exact hgen inputs ⟨kd, [], [], 0, false, []⟩ (by simp)

/-- C5 amended: the merge trace consists of the temp/hint writes, then
the removals of all the original immutable input files, and only then the
rename of `temp` to `active_id - 1` — i.e. the originals are removed
after `temp` and `hint` are fully written but before the rename
(delete-then-rename, the reverse of the claimed commit ordering). -/
theorem c5_rename_after_removals (s : HydraDB)
    (hd : (mergeDB s).temp_file_has_data = true) :
    ∃ w, (∀ x ∈ w, x = FsEvent.writeTemp ∨ x = FsEvent.writeHint) ∧
      (mergeDB s).events =
        w ++ ((sortIds (s.files.map (fun p => p.1))).dropLast).map FsEvent.removeFile
          ++ [FsEvent.renameTemp (s.cur_id - 1)] := by
  by_cases h0 : s.cur_id = 0
  · rw [mergeDB, if_pos h0] at hd
    simp at hd
  · rw [mergeDB, if_neg h0] at hd ⊢
    dsimp only at hd ⊢
    by_cases hflag :
        (mergeLoop s.cur_id
          (((sortIds (s.files.map (fun p => p.1))).dropLast).map
            (fun i => (i, (lookupFile s.files i).getD []))) s.key_dir).temp_file_has_data = true
    · rw [if_pos hflag]
      exact ⟨_, mergeLoop_events_writes _ _ _, rfl⟩
    · rw [if_neg hflag] at hd
      dsimp only at hd
      exact absurd hd hflag

theorem decode32_be32 (n : Nat) (rest : List Nat) :
    decode32 (be32 n ++ rest) = n % 2 ^ 32 := by
  simp only [be32, List.cons_append, List.nil_append, decode32]
  omega

theorem decode64_be64 (n : Nat) (rest : List Nat) :
    decode64 (be64 n ++ rest) = n % 2 ^ 64 := by
  simp only [be64, List.cons_append, List.nil_append, decode64]
  omega

theorem be32_length (n : Nat) : (be32 n).length = 4 := by
  simp [be32]

theorem be64_length (n : Nat) : (be64 n).length = 8 := by
  simp [be64]

theorem recordHeader_length (r : DataRecord) : (recordHeader r).length = 16 := by
  simp [recordHeader, be32_length]

theorem hintHeader_length (e : HintEntry) : (hintHeader e).length = 20 := by
  simp [hintHeader, be32_length, be64_length]

theorem encodeRecord_split (r : DataRecord) (rest : List Nat) :
    encodeRecord r ++ rest = recordHeader r ++ (r.key ++ (r.val ++ rest)) := by
  simp [encodeRecord, to_db_entry, recordHeader, List.append_assoc]

theorem encodeHint_split (e : HintEntry) (rest : List Nat) :
    encodeHintEntry e ++ rest = hintHeader e ++ (e.key ++ rest) := by
  simp [encodeHintEntry, hintHeader, List.append_assoc]

theorem recordHeader_decode_crc (r : DataRecord) (h : r.crc < 2 ^ 32) :
    decode32 (recordHeader r) = r.crc := by
  rw [recordHeader, decode32_be32, Nat.mod_eq_of_lt h]

theorem recordHeader_drop4 (r : DataRecord) :
    (recordHeader r).drop 4 = be32 r.tstamp ++ (be32 r.key.length ++ be32 r.val.length) :=
  List.drop_left' (be32_length r.crc)

theorem recordHeader_decode_tstamp (r : DataRecord) (h : r.tstamp < 2 ^ 32) :
    decode32 ((recordHeader r).drop 4) = r.tstamp := by
  rw [recordHeader_drop4, decode32_be32, Nat.mod_eq_of_lt h]

theorem recordHeader_drop8 (r : DataRecord) :
    (recordHeader r).drop 8 = be32 r.key.length ++ be32 r.val.length := by
  rw [show (8 : Nat) = 4 + 4 from rfl, ← List.drop_drop, recordHeader_drop4]
  exact List.drop_left' (be32_length r.tstamp)

theorem recordHeader_decode_ksz (r : DataRecord) (h : r.key.length < 2 ^ 32) :
    decode32 ((recordHeader r).drop 8) = r.key.length := by
  rw [recordHeader_drop8, decode32_be32, Nat.mod_eq_of_lt h]

theorem recordHeader_drop12 (r : DataRecord) :
    (recordHeader r).drop 12 = be32 r.val.length := by
  rw [show (12 : Nat) = 8 + 4 from rfl, ← List.drop_drop, recordHeader_drop8]
  rw [show be32 r.key.length ++ be32 r.val.length =
    be32 r.key.length ++ (be32 r.val.length ++ []) by simp]
  exact List.drop_left' (be32_length r.key.length)

theorem recordHeader_decode_vsz (r : DataRecord) (h : r.val.length < 2 ^ 32) :
    decode32 ((recordHeader r).drop 12) = r.val.length := by
  rw [recordHeader_drop12,
    show be32 r.val.length = be32 r.val.length ++ [] by simp,
    decode32_be32, Nat.mod_eq_of_lt h]

theorem hintHeader_decode_tstamp (e : HintEntry) (h : e.tstamp < 2 ^ 32) :
    decode32 (hintHeader e) = e.tstamp := by
  rw [hintHeader, decode32_be32, Nat.mod_eq_of_lt h]

theorem hintHeader_drop4 (e : HintEntry) :
    (hintHeader e).drop 4 = be32 e.key.length ++ (be32 e.vsz ++ be64 e.val_pos) :=
  List.drop_left' (be32_length e.tstamp)

theorem hintHeader_decode_ksz (e : HintEntry) (h : e.key.length < 2 ^ 32) :
    decode32 ((hintHeader e).drop 4) = e.key.length := by
  rw [hintHeader_drop4, decode32_be32, Nat.mod_eq_of_lt h]

theorem hintHeader_drop8 (e : HintEntry) :
    (hintHeader e).drop 8 = be32 e.vsz ++ be64 e.val_pos := by
  rw [show (8 : Nat) = 4 + 4 from rfl, ← List.drop_drop, hintHeader_drop4]
  exact List.drop_left' (be32_length e.key.length)

theorem hintHeader_decode_vsz (e : HintEntry) (h : e.vsz < 2 ^ 32) :
    decode32 ((hintHeader e).drop 8) = e.vsz := by
  rw [hintHeader_drop8, decode32_be32, Nat.mod_eq_of_lt h]

theorem hintHeader_drop12 (e : HintEntry) :
    (hintHeader e).drop 12 = be64 e.val_pos := by
  rw [show (12 : Nat) = 8 + 4 from rfl, ← List.drop_drop, hintHeader_drop8]
  rw [show be32 e.vsz ++ be64 e.val_pos = be32 e.vsz ++ (be64 e.val_pos ++ []) by simp]
  exact List.drop_left' (be32_length e.vsz)

theorem hintHeader_decode_val_pos (e : HintEntry) (h : e.val_pos < 2 ^ 64) :
    decode64 ((hintHeader e).drop 12) = e.val_pos := by
  rw [hintHeader_drop12,
    show be64 e.val_pos = be64 e.val_pos ++ [] by simp,
    decode64_be64, Nat.mod_eq_of_lt h]

theorem hintRestoreLoop_step (e : HintEntry) (hwf : WFHint e)
    (hkeyu : isValidUtf8 e.key = true) (rest : List Nat)
    (fuel : Nat) (buf : List Nat) (hbuf : buf.length = 20) (active : Nat) (kd : KeyDir) :
    hintRestoreLoop (fuel + 1) buf (encodeHintEntry e ++ rest) active kd =
      hintRestoreLoop fuel (hintHeader e) rest active
        (keyDirPut kd e.key ⟨active - 1, e.vsz, e.val_pos, e.tstamp⟩) := by
  obtain ⟨h1, h2, h3, h4⟩ := hwf
  have hchunk : (hintHeader e ++ (e.key ++ rest)).take 20 = hintHeader e :=
    List.take_left' (hintHeader_length e)
  have hrest2 : (hintHeader e ++ (e.key ++ rest)).drop 20 = e.key ++ rest :=
    List.drop_left' (hintHeader_length e)
  have hbufdrop : buf.drop 20 = [] := by
    rw [← hbuf]
    exact List.drop_length buf
  have hkey : (e.key ++ rest).take e.key.length = e.key := List.take_left e.key rest
  have hkdrop : (e.key ++ rest).drop e.key.length = rest := List.drop_left e.key rest
  have hle : e.key.length ≤ (e.key ++ rest).length := by simp
  rw [encodeHint_split]
  simp only [hintRestoreLoop, hchunk, hintHeader_length, hrest2, hbufdrop, List.append_nil,
    hintHeader_decode_tstamp e h1, hintHeader_decode_ksz e h2, hintHeader_decode_vsz e h3,
    hintHeader_decode_val_pos e h4, hkey, hkdrop, hle, hkeyu, if_true]
  simp

theorem activeRestoreLoop_step (r : DataRecord) (hwf : WFRecord r)
    (hkeyu : isValidUtf8 r.key = true) (hvalu : isValidUtf8 r.val = true) (rest : List Nat)
    (fuel : Nat) (buf : List Nat) (hbuf : buf.length = 16) (off active : Nat) (kd : KeyDir) :
    activeRestoreLoop (fuel + 1) buf (encodeRecord r ++ rest) off active kd =
      activeRestoreLoop fuel (recordHeader r) rest
        (off + 16 + r.key.length + r.val.length) active
        (if r.val = TOMBSTONE then keyDirDel kd r.key
         else keyDirPut kd r.key ⟨active, r.val.length, off + 16 + r.key.length, r.tstamp⟩) := by
  obtain ⟨h1, h2, h3, h4⟩ := hwf
  have hchunk : (recordHeader r ++ (r.key ++ (r.val ++ rest))).take 16 = recordHeader r :=
    List.take_left' (recordHeader_length r)
  have hrest2 : (recordHeader r ++ (r.key ++ (r.val ++ rest))).drop 16 =
      r.key ++ (r.val ++ rest) :=
    List.drop_left' (recordHeader_length r)
  have hbufdrop : buf.drop 16 = [] := by
    rw [← hbuf]
    exact List.drop_length buf
  have hkey : (r.key ++ (r.val ++ rest)).take r.key.length = r.key := List.take_left _ _
  have hkdrop : (r.key ++ (r.val ++ rest)).drop r.key.length = r.val ++ rest :=
    List.drop_left _ _
  have hval : (r.val ++ rest).take r.val.length = r.val := List.take_left _ _
  have hvdrop : (r.val ++ rest).drop r.val.length = rest := List.drop_left _ _
  have hle1 : r.key.length ≤ (r.key ++ (r.val ++ rest)).length := by simp
  have hle2 : r.val.length ≤ (r.val ++ rest).length := by simp
  rw [encodeRecord_split]
  simp only [activeRestoreLoop, hchunk, recordHeader_length, hrest2, hbufdrop,
    List.append_nil, recordHeader_decode_tstamp r h2, recordHeader_decode_ksz r h3,
    recordHeader_decode_vsz r h4, hkey, hkdrop, hval, hvdrop, hle1, hle2, hkeyu, hvalu,
    if_true]
  by_cases hv : r.val = TOMBSTONE
  · simp [hv]
  · simp [hv]

theorem dataIterLoop_step (r : DataRecord) (hwf : WFRecord r) (rest : List Nat)
    (fuel : Nat) (buf : List Nat) (hbuf : buf.length = 16) (off : Nat) :
    dataIterLoop (fuel + 1) buf (encodeRecord r ++ rest) off =
      .ok ⟨r.crc, r.tstamp, r.key.length, r.val.length, r.key, r.val, off + 16 + r.key.length⟩ ::
        dataIterLoop fuel (recordHeader r) rest (off + 16 + r.key.length + r.val.length) := by
  obtain ⟨h1, h2, h3, h4⟩ := hwf
  have hchunk : (recordHeader r ++ (r.key ++ (r.val ++ rest))).take 16 = recordHeader r :=
    List.take_left' (recordHeader_length r)
  have hrest2 : (recordHeader r ++ (r.key ++ (r.val ++ rest))).drop 16 =
      r.key ++ (r.val ++ rest) :=
    List.drop_left' (recordHeader_length r)
  have hbufdrop : buf.drop 16 = [] := by
    rw [← hbuf]
    exact List.drop_length buf
  have hkey : (r.key ++ (r.val ++ rest)).take r.key.length = r.key := List.take_left _ _
  have hkdrop : (r.key ++ (r.val ++ rest)).drop r.key.length = r.val ++ rest :=
    List.drop_left _ _
  have hval : (r.val ++ rest).take r.val.length = r.val := List.take_left _ _
  have hvdrop : (r.val ++ rest).drop r.val.length = rest := List.drop_left _ _
  have hle1 : r.key.length ≤ (r.key ++ (r.val ++ rest)).length := by simp
  have hle2 : r.val.length ≤ (r.val ++ rest).length := by simp
  rw [encodeRecord_split]
  simp only [dataIterLoop, hchunk, recordHeader_length, hrest2, hbufdrop,
    List.append_nil, recordHeader_decode_crc r h1, recordHeader_decode_tstamp r h2,
    recordHeader_decode_ksz r h3, recordHeader_decode_vsz r h4, hkey, hkdrop, hval,
    hvdrop, hle1, hle2, if_true]
  simp

theorem serializeRecords_cons (r : DataRecord) (t : List DataRecord) :
    serializeRecords (r :: t) = encodeRecord r ++ serializeRecords t := rfl

theorem serializeHints_cons (e : HintEntry) (t : List HintEntry) :
    serializeHints (e :: t) = encodeHintEntry e ++ serializeHints t := rfl

theorem encodeRecord_length (r : DataRecord) :
    (encodeRecord r).length = 16 + r.key.length + r.val.length :=
  to_db_entry_length r.crc r.tstamp r.key r.val

theorem encodeHintEntry_length (e : HintEntry) :
    (encodeHintEntry e).length = 20 + e.key.length := by
  simp [encodeHintEntry, be32_length, be64_length]
  omega

theorem serializeRecords_length (rs : List DataRecord) :
    rs.length ≤ (serializeRecords rs).length := by
  induction rs with
  | nil => simp [serializeRecords]
  | cons r t ih =>
    rw [serializeRecords_cons]
    simp only [List.length_append, List.length_cons, encodeRecord_length]
    omega

theorem serializeHints_length (hs : List HintEntry) :
    hs.length ≤ (serializeHints hs).length := by
  induction hs with
  | nil => simp [serializeHints]
  | cons e t ih =>
    rw [serializeHints_cons]
    simp only [List.length_append, List.length_cons, encodeHintEntry_length]
    omega

theorem hintRestoreLoop_serialize (hs : List HintEntry) :
    ∀ fuel, hs.length ≤ fuel → ∀ buf, buf.length = 20 → ∀ active kd,
      (∀ e ∈ hs, WFHint e) → (∀ e ∈ hs, isValidUtf8 e.key = true) →
      hintRestoreLoop fuel buf (serializeHints hs) active kd =
        .ok (specHintReplay active hs kd) := by
  induction hs with
  | nil =>
    intro fuel _ buf _ active kd _ _
    cases fuel with
    | zero => rfl
    | succ m => rfl
  | cons e t ih =>
    intro fuel hfuel buf hbuf active kd hwf hutf
    cases fuel with
    | zero => exact absurd hfuel (by simp)
    | succ m =>
      rw [serializeHints_cons,
        hintRestoreLoop_step e (hwf e (List.mem_cons_self e t))
          (hutf e (List.mem_cons_self e t)) _ m buf hbuf active kd,
        ih m (by simp at hfuel; omega) (hintHeader e) (hintHeader_length e) active _
          (fun x hx => hwf x (List.mem_cons_of_mem e hx))
          (fun x hx => hutf x (List.mem_cons_of_mem e hx))]
      rfl

theorem activeRestoreLoop_serialize (rs : List DataRecord) :
    ∀ fuel, rs.length ≤ fuel → ∀ buf, buf.length = 16 → ∀ off active kd,
      (∀ r ∈ rs, WFRecord r) →
      (∀ r ∈ rs, isValidUtf8 r.key = true ∧ isValidUtf8 r.val = true) →
      activeRestoreLoop fuel buf (serializeRecords rs) off active kd =
        .ok (specActiveReplay active rs off kd) := by
  induction rs with
  | nil =>
    intro fuel _ buf _ off active kd _ _
    cases fuel with
    | zero => rfl
    | succ m => rfl
  | cons r t ih =>
    intro fuel hfuel buf hbuf off active kd hwf hutf
    cases fuel with
    | zero => exact absurd hfuel (by simp)
    | succ m =>
      rw [serializeRecords_cons,
        activeRestoreLoop_step r (hwf r (List.mem_cons_self r t))
          (hutf r (List.mem_cons_self r t)).1 (hutf r (List.mem_cons_self r t)).2
          _ m buf hbuf off active kd,
        show off + 16 + r.key.length + r.val.length =
          off + (16 + r.key.length + r.val.length) from by omega,
        ih m (by simp at hfuel; omega) (recordHeader r) (recordHeader_length r) _ active _
          (fun x hx => hwf x (List.mem_cons_of_mem r hx))
          (fun x hx => hutf x (List.mem_cons_of_mem r hx))]
      rfl

theorem dataIterLoop_serialize (rs : List DataRecord) :
    ∀ fuel, rs.length ≤ fuel → ∀ buf, buf.length = 16 → ∀ off,
      (∀ r ∈ rs, WFRecord r) →
      dataIterLoop fuel buf (serializeRecords rs) off = parsedList rs off := by
  induction rs with
  | nil =>
    intro fuel _ buf _ off _
    cases fuel with
    | zero => rfl
    | succ m => rfl
  | cons r t ih =>
    intro fuel hfuel buf hbuf off hwf
    cases fuel with
    | zero => exact absurd hfuel (by simp)
    | succ m =>
      rw [serializeRecords_cons,
        dataIterLoop_step r (hwf r (List.mem_cons_self r t)) _ m buf hbuf off,
        show off + 16 + r.key.length + r.val.length =
          off + (16 + r.key.length + r.val.length) from by omega,
        ih m (by simp at hfuel; omega) (recordHeader r) (recordHeader_length r) _
          (fun x hx => hwf x (List.mem_cons_of_mem r hx))]
      rfl

theorem dataFileRecords_serialize (rs : List DataRecord) (hwf : ∀ r ∈ rs, WFRecord r) :
    dataFileRecords (serializeRecords rs) = parsedList rs 0 :=
  dataIterLoop_serialize rs _
    (by have := serializeRecords_length rs; omega) _ (by simp) 0 hwf

theorem okRecords_parsedList (rs : List DataRecord) :
    ∀ off, okRecords (parsedList rs off) = parsedOk rs off := by
  induction rs with
  | nil => intro off; rfl
  | cons r t ih =>
    intro off
    simp only [parsedList, okRecords, parsedOk, ih]

/-- C7 fails as stated: the engine's keys and values are arbitrary byte
sequences, but the hint-path restore decodes them with
`String::from_utf8(...).unwrap()` / `str::from_utf8(...).unwrap()`, so an
active-file record whose value is the single byte `0xFF` (or a hint entry
whose key is the single byte `0x80`) makes the restore panic instead of
installing the entry the claim promises. -/
theorem c7_counterexample_panic_on_binary_value :
    hintFileRestore 1 (serializeHints []) (serializeRecords [⟨0, 7, [97], [255]⟩]) [] =
      RestoreOutcome.panic ∧
    RestoreOutcome.panic ≠
      RestoreOutcome.ok
        (specActiveReplay 1 [⟨0, 7, [97], [255]⟩] 0 (specHintReplay 1 [] [])) ∧
    hintFileRestore 1 (serializeHints [⟨5, [128], 3, 20⟩]) (serializeRecords []) [] =
      RestoreOutcome.panic := by
  decide

/-- C7 amended: on the hint-file recovery path, with a well-formed hint
file and a well-formed active data file (active id at least 1, as a hint
file only exists after a merge) whose keys and values all decode as
UTF-8, the byte-level restore equals the spec-side description: every
hint entry is installed pointing at `file_id = active_id - 1`, and then
the active data file is replayed so that records with value `TOMBSTONE`
delete their key while all other records install or overwrite an entry
pointing at the active id.  On a non-UTF-8 key or value the restore
panics instead (see the counterexample). -/
theorem c7_hint_path_recovery (active : Nat) (hs : List HintEntry) (rs : List DataRecord)
    (_hact : 1 ≤ active)
    (hwh : ∀ e ∈ hs, WFHint e) (hwr : ∀ r ∈ rs, WFRecord r)
    (huh : ∀ e ∈ hs, isValidUtf8 e.key = true)
    (hur : ∀ r ∈ rs, isValidUtf8 r.key = true ∧ isValidUtf8 r.val = true) :
    hintFileRestore active (serializeHints hs) (serializeRecords rs) [] =
      .ok (specActiveReplay active rs 0 (specHintReplay active hs [])) := by
  unfold hintFileRestore
  rw [hintRestoreLoop_serialize hs _
    (by have := serializeHints_length hs; omega) _ (by simp) active [] hwh huh]
  exact activeRestoreLoop_serialize rs _
    (by have := serializeRecords_length rs; omega) _ (by simp) 0 active _ hwr hur

/-- Witness for C7's amended theorem at a concrete input: one hint entry
for key `[97]`, an active file with a record for `[98]` and a tombstone
for `[97]`, all keys and values ASCII. -/
theorem c7_hint_path_recovery_witness :
    hintFileRestore 1
      (serializeHints [⟨5, [97], 3, 20⟩])
      (serializeRecords [⟨0, 7, [98], [1, 2]⟩, ⟨0, 8, [97], TOMBSTONE⟩]) [] =
      .ok (specActiveReplay 1 [⟨0, 7, [98], [1, 2]⟩, ⟨0, 8, [97], TOMBSTONE⟩] 0
        (specHintReplay 1 [⟨5, [97], 3, 20⟩] [])) :=
  c7_hint_path_recovery 1 [⟨5, [97], 3, 20⟩]
    [⟨0, 7, [98], [1, 2]⟩, ⟨0, 8, [97], TOMBSTONE⟩]
    (by decide) (by decide) (by decide) (by decide) (by decide)

theorem serializeRecords_append (a : List DataRecord) (r : DataRecord) :
    serializeRecords (a ++ [r]) = serializeRecords a ++ encodeRecord r := by
  induction a with
  | nil => simp [serializeRecords]
  | cons q t ih =>
    rw [List.cons_append, serializeRecords_cons, serializeRecords_cons, ih,
      List.append_assoc]

theorem serializeHints_append (a : List HintEntry) (e : HintEntry) :
    serializeHints (a ++ [e]) = serializeHints a ++ encodeHintEntry e := by
  induction a with
  | nil => simp [serializeHints]
  | cons q t ih =>
    rw [List.cons_append, serializeHints_cons, serializeHints_cons, ih,
      List.append_assoc]

theorem mergeRecord_rel (cur fid : Nat) (st : MergeState) (sst : SpecMergeState)
    (hrel : MergeRel st sst) (r : DataRecord) (pos : Nat) :
    MergeRel
      (mergeRecord cur fid st ⟨r.crc, r.tstamp, r.key.length, r.val.length, r.key, r.val, pos⟩)
      (specMergeStep cur fid sst r pos) := by
  obtain ⟨hkd, htemp, hhint, hoff, hflag⟩ := hrel
  unfold mergeRecord specMergeStep
  dsimp only
  rw [hkd]
  cases hget : keyDirGet sst.kd r.key with
  | none => exact ⟨hkd, htemp, hhint, hoff, hflag⟩
  | some entry =>
    dsimp only
    by_cases hcond : entry.file_id = fid ∧ entry.val_pos = pos
    · rw [if_pos hcond, if_pos hcond]
      refine ⟨?_, ?_, ?_, ?_, ?_⟩
      · dsimp only
        rw [hoff]
      · dsimp only
        rw [htemp, serializeRecords_append]
        rfl
      · dsimp only
        rw [hhint, serializeHints_append, hoff]
        rfl
      · dsimp only
        rw [hoff, to_db_entry_length]
      · dsimp only
        simp
    · rw [if_neg hcond, if_neg hcond]
      exact ⟨hkd, htemp, hhint, hoff, hflag⟩

theorem mergeFileFold_rel (cur fid : Nat) (rs : List DataRecord) :
    ∀ (st : MergeState) (sst : SpecMergeState) (off : Nat), MergeRel st sst →
      MergeRel ((parsedOk rs off).foldl (mergeRecord cur fid) st)
        (specMergeFile cur fid sst rs off) := by
  induction rs with
  | nil => intro st sst off h; exact h
  | cons r t ih =>
    intro st sst off h
    simp only [parsedOk, List.foldl, specMergeFile]
    exact ih _ _ _ (mergeRecord_rel cur fid st sst h r (off + 16 + r.key.length))

theorem mergeLoopFold_rel (cur : Nat) (inputs : List (Nat × List DataRecord)) :
    ∀ (st : MergeState) (sst : SpecMergeState), MergeRel st sst →
      (∀ p ∈ inputs, ∀ r ∈ p.2, WFRecord r) →
      MergeRel
        ((inputs.map (fun p => (p.1, serializeRecords p.2))).foldl
          (fun a p => mergeFile cur a p.1 p.2) st)
        (inputs.foldl (fun a p => specMergeFile cur p.1 a p.2 0) sst) := by
  induction inputs with
  | nil => intro st sst h _; exact h
  | cons p t ih =>
    intro st sst h hwf
    simp only [List.map, List.foldl]
    have hfile : mergeFile cur st p.1 (serializeRecords p.2) =
        (parsedOk p.2 0).foldl (mergeRecord cur p.1) st := by
      unfold mergeFile
      rw [dataFileRecords_serialize p.2 (hwf p (List.mem_cons_self p t)),
        okRecords_parsedList]
    rw [hfile]
    exact ih _ _ (mergeFileFold_rel cur p.1 p.2 st sst 0 h)
      (fun q hq => hwf q (List.mem_cons_of_mem p hq))

/-- C4: the byte-level merge loop refines the claim's description: while
merging each immutable file (well-formed record streams), a record is
copied to `temp` exactly when the key directory's current entry for its
key has this file id and this exact `val_pos`; the bytes written to `temp`
and `hint` are the serializations of the copied records and of hint
entries whose `val_pos` is `cur_temp_offset + 16 + ksz` with the counter
advanced by `16 + ksz + vsz`, and the key directory entry of each copied
key becomes `(active_id - 1, val_sz, new val_pos, tstamp)`. -/
theorem c4_merge_live_selection (cur : Nat) (inputs : List (Nat × List DataRecord))
    (kd : KeyDir) (hwf : ∀ p ∈ inputs, ∀ r ∈ p.2, WFRecord r) :
    (mergeLoop cur (inputs.map (fun p => (p.1, serializeRecords p.2))) kd).kd =
      (specMergeLoop cur inputs kd).kd ∧
    (mergeLoop cur (inputs.map (fun p => (p.1, serializeRecords p.2))) kd).tempBytes =
      serializeRecords (specMergeLoop cur inputs kd).temp ∧
    (mergeLoop cur (inputs.map (fun p => (p.1, serializeRecords p.2))) kd).hintBytes =
      serializeHints (specMergeLoop cur inputs kd).hint ∧
    (mergeLoop cur (inputs.map (fun p => (p.1, serializeRecords p.2))) kd).cur_val_offset =
      (specMergeLoop cur inputs kd).cur_temp_offset ∧
    (mergeLoop cur (inputs.map (fun p => (p.1, serializeRecords p.2))) kd).temp_file_has_data =
      !(specMergeLoop cur inputs kd).temp.isEmpty :=
  mergeLoopFold_rel cur inputs ⟨kd, [], [], 0, false, []⟩ ⟨kd, [], [], 0⟩
    ⟨rfl, rfl, rfl, rfl, rfl⟩ hwf

/-- Witness for C4 at a concrete input: one immutable file with two live
records (the key directory points at their exact positions) under active
id 1. -/
theorem c4_merge_live_selection_witness :
    (mergeLoop 1
      ([(0, [⟨0, 0, [97, 98, 104, 105], [114, 117, 115, 116]⟩,
             ⟨0, 1, [112, 97, 100, 115], [106, 97, 118, 97]⟩])].map
        (fun p => (p.1, serializeRecords p.2)))
      [([97, 98, 104, 105], ⟨0, 4, 20, 0⟩), ([112, 97, 100, 115], ⟨0, 4, 44, 1⟩),
       ([115, 119, 97, 112], ⟨1, 4, 20, 2⟩)]).kd =
      (specMergeLoop 1
        [(0, [⟨0, 0, [97, 98, 104, 105], [114, 117, 115, 116]⟩,
              ⟨0, 1, [112, 97, 100, 115], [106, 97, 118, 97]⟩])]
        [([97, 98, 104, 105], ⟨0, 4, 20, 0⟩), ([112, 97, 100, 115], ⟨0, 4, 44, 1⟩),
         ([115, 119, 97, 112], ⟨1, 4, 20, 2⟩)]).kd :=
  (c4_merge_live_selection 1
    [(0, [⟨0, 0, [97, 98, 104, 105], [114, 117, 115, 116]⟩,
          ⟨0, 1, [112, 97, 100, 115], [106, 97, 118, 97]⟩])]
    [([97, 98, 104, 105], ⟨0, 4, 20, 0⟩), ([112, 97, 100, 115], ⟨0, 4, 44, 1⟩),
     ([115, 119, 97, 112], ⟨1, 4, 20, 2⟩)] (by decide)).1

/-- Witness for C5's amended theorem at the concrete three-put scenario. -/
theorem c5_rename_after_removals_witness :
    (mergeDB (applyPuts (newHydraDB 60)
        [([97, 98, 104, 105], [114, 117, 115, 116], 0),
         ([112, 97, 100, 115], [106, 97, 118, 97], 1),
         ([115, 119, 97, 112], [46, 110, 101, 116], 2)])).temp_file_has_data = true ∧
    (∃ w, (∀ x ∈ w, x = FsEvent.writeTemp ∨ x = FsEvent.writeHint) ∧
      (mergeDB (applyPuts (newHydraDB 60)
          [([97, 98, 104, 105], [114, 117, 115, 116], 0),
           ([112, 97, 100, 115], [106, 97, 118, 97], 1),
           ([115, 119, 97, 112], [46, 110, 101, 116], 2)])).events =
        w ++ ((sortIds ((applyPuts (newHydraDB 60)
            [([97, 98, 104, 105], [114, 117, 115, 116], 0),
             ([112, 97, 100, 115], [106, 97, 118, 97], 1),
             ([115, 119, 97, 112], [46, 110, 101, 116], 2)]).files.map (fun p => p.1))).dropLast).map
              FsEvent.removeFile
          ++ [FsEvent.renameTemp ((applyPuts (newHydraDB 60)
            [([97, 98, 104, 105], [114, 117, 115, 116], 0),
             ([112, 97, 100, 115], [106, 97, 118, 97], 1),
             ([115, 119, 97, 112], [46, 110, 101, 116], 2)]).cur_id - 1)]) :=
  ⟨by decide, c5_rename_after_removals _ (by decide)⟩

end HydraSpec
